import Mathlib

/-!
Shallow embedding of the libfabric-based PGAS communication substrate
(`comm-ofi.c`): transaction-context tagging, peer bitmaps, the transmit
context table, the RDMA PUT/GET engine, the AM request path, and the AMO
engine, together with theorems checking the specification's claims.

Machine integers are modelled as `Nat` with explicit masking where the C
code relies on fixed width.  Pointers are modelled as `Nat` addresses with
`0` playing the role of `NULL`.  Fabric calls and aborts are modelled as
events in a trace.
-/

namespace CommOfi

/-! ## Transaction tracking (txnTrkEncode / txnTrkDecode) -/

/-- The type `txnTrkType_t`: the two live variants of a completion-context tag.
(`txnTrkTypeCount` is only an enum sentinel in the C code.) -/
inductive txnTrkType_t where
  | txnTrkId    -- context "ptr" is just an id value
  | txnTrkDone  -- *ptr is an atomic bool 'done' flag
  deriving DecidableEq, Repr

/-- Numeric value of the enum, as in the C source. -/
def txnTrkType_t.val : txnTrkType_t → Nat
  | .txnTrkId => 0
  | .txnTrkDone => 1

def TXNTRK_TYPE_BITS : Nat := 1
def TXNTRK_ADDR_BITS : Nat := 64 - TXNTRK_TYPE_BITS
def TXNTRK_TYPE_MASK : Nat := (1 <<< TXNTRK_TYPE_BITS) - 1
/-- Value of `~(TXNTRK_TYPE_MASK << TXNTRK_ADDR_BITS)` in 64-bit arithmetic. -/
def TXNTRK_ADDR_MASK : Nat := (2 ^ 64 - 1) - (TXNTRK_TYPE_MASK <<< TXNTRK_ADDR_BITS)

/-- The record `txnTrkCtx_t`: decoded type/pointer pair. -/
structure txnTrkCtx_t where
  typ : Nat
  ptr : Nat
  deriving DecidableEq, Repr

/-- Function `txnTrkEncode`: pack the variant into the top bit and the pointer into
the low 63 bits of a 64-bit word. -/
def txnTrkEncode (typ : txnTrkType_t) (p : Nat) : Nat :=
  ((typ.val <<< TXNTRK_ADDR_BITS) ||| (p &&& TXNTRK_ADDR_MASK)) % 2 ^ 64

/-- Function `txnTrkDecode`: unpack a context word. -/
def txnTrkDecode (ctx : Nat) : txnTrkCtx_t :=
  { typ := (ctx >>> TXNTRK_ADDR_BITS) &&& TXNTRK_TYPE_MASK
    ptr := ctx &&& TXNTRK_ADDR_MASK }

/-! ## Bitmaps (`struct bitmap_t` and operations) -/

def bitmapElemWidth : Nat := 64

/-- The C `struct bitmap_t`: a length plus an array of 64-bit words. -/
structure bitmap_t where
  len : Nat
  map : List Nat
  deriving DecidableEq, Repr

def bitmapElemIdx (i : Nat) : Nat := i / bitmapElemWidth

def bitmapOff (i : Nat) : Nat := i % bitmapElemWidth

def bitmapNumElems (len : Nat) : Nat := (len - 1) / bitmapElemWidth + 1

def bitmapElemBit (i : Nat) : Nat := 1 <<< bitmapOff i

def bitmapClear (b : bitmap_t) (i : Nat) : bitmap_t :=
  { b with map := b.map.set (bitmapElemIdx i)
             ((b.map.getD (bitmapElemIdx i) 0) &&& ((2 ^ 64 - 1) - bitmapElemBit i)) }

def bitmapSet (b : bitmap_t) (i : Nat) : bitmap_t :=
  { b with map := b.map.set (bitmapElemIdx i)
             ((b.map.getD (bitmapElemIdx i) 0) ||| bitmapElemBit i) }

def bitmapTest (b : bitmap_t) (i : Nat) : Bool :=
  (b.map.getD (bitmapElemIdx i) 0) &&& bitmapElemBit i != 0

/-- Function `bitmapAlloc`: zero-filled bitmap of the given length. -/
def bitmapAlloc (len : Nat) : bitmap_t :=
  { len := len, map := List.replicate (bitmapNumElems len) 0 }

/-! ## Transmit context table (`struct perTxCtxInfo_t`, tciAlloc/tciFree) -/

/-- The fields of `struct perTxCtxInfo_t` that the claims are about.
`txCQ` records whether the context reports completions through a CQ. -/
structure perTxCtxInfo_t where
  allocated : Bool
  bound : Bool
  txCQ : Bool
  numTxnsOut : Nat
  numTxnsSent : Nat
  deriving DecidableEq, Repr

/-- Function `tciFree`: bound contexts stay bound; only non-bound ones release
their `allocated` flag. -/
def tciFree (e : perTxCtxInfo_t) : perTxCtxInfo_t :=
  if !e.bound then { e with allocated := false } else e

/-- Index order in which `findFreeTciTabEntry`'s worker scan visits the
worker sub-range `[0, n)` starting after thread-local `last_iw`:
`last_iw+1, …, n-1, 0, …, last_iw`. -/
def scanOrder (n last : Nat) : List Nat :=
  (List.range n).map (fun k => (last + 1 + k) % n)

/-- Result of one full scan of the worker sub-range. -/
inductive scanResult_t where
  | claimed (iw : Nat)   -- atomic_exchange on tciTab[iw].allocated returned false
  | allBound             -- scanned every entry; all were bound (CHK_FALSE aborts)
  | someUnbound          -- scanned every entry; none claimable but some unbound
  deriving DecidableEq, Repr

/-- Inner do-while of `findFreeTciTabEntry`: walk the visit order,
accumulating `allBound`, trying `atomic_exchange(&e.allocated, true)` on
each entry, stopping at the first entry whose flag was previously false.
Also returns the list of entries on which the exchange was performed. -/
def scanPassGo (tab : Nat → perTxCtxInfo_t) :
    List Nat → Bool → scanResult_t × List Nat
  | [], ab => ((if ab then .allBound else .someUnbound), [])
  | iw :: rest, ab =>
    let e := tab iw
    let ab' := ab && e.bound
    if !e.allocated then (.claimed iw, [iw])
    else
      let r := scanPassGo tab rest ab'
      (r.1, iw :: r.2)

/-- One full scan of the worker sub-range `[0, n)` starting after `last`. -/
def scanPass (tab : Nat → perTxCtxInfo_t) (n last : Nat) : scanResult_t × List Nat :=
  scanPassGo tab (scanOrder n last) true

/-- Outcome of the worker-range `findFreeTciTabEntry` loop. -/
inductive findResult_t where
  | found (iw : Nat)   -- claimed tciTab[iw]; its allocated flag is now true
  | aborted            -- CHK_FALSE(allBound) fired: resource exhaustion
  | pending            -- retry loop still running when the modelled trace ends
  deriving DecidableEq, Repr

/-- Worker half of `findFreeTciTabEntry` (bindToAmHandler false).  The
outer do-while yields and rescans, so between scans other threads may
change the table; each element of `snaps` is the table contents observed
by one scan. -/
def findFreeTciTabEntryWorker :
    List (Nat → perTxCtxInfo_t) → Nat → Nat → findResult_t
  | [], _, _ => .pending
  | tab :: rest, n, last =>
    match (scanPass tab n last).1 with
    | .claimed iw => .found iw
    | .allBound => .aborted
    | .someUnbound => findFreeTciTabEntryWorker rest n last

/-- Outcome of `tciAllocCommon`.  `claims` lists the entries on which an
`atomic_exchange(&allocated, true)` was performed. -/
inductive tciAllocOutcome where
  | ret (iw : Nat) (e : perTxCtxInfo_t) (claims : List Nat)
  | aborted
  | pending
  deriving DecidableEq, Repr

/-- Function `tciAllocCommon`.  Here `cache` is the thread-local `_ttcip` (an index into
the table, or none); `tab :: _ = snaps` is the table the cached-entry
checks observe; `n` is `tciTabLen - numAmHandlers` and `last` the
thread-local `last_iw`.  The returned entry value reflects the claim and
any binding performed. -/
def tciAllocCommon (bindToAmHandler tciTabFixedAssignments isFixedThread : Bool)
    (cache : Option Nat) (snaps : List (Nat → perTxCtxInfo_t))
    (n last : Nat) : tciAllocOutcome :=
  match snaps with
  | [] => .pending
  | tab :: rest =>
    let cold : List Nat → tciAllocOutcome := fun cs =>
      if bindToAmHandler then
        -- AM handlers use tciTab[n]; CHK_FALSE aborts if already taken
        if (tab n).allocated then .aborted
        else .ret n { tab n with allocated := true, bound := true } (cs ++ [n])
      else
        match findFreeTciTabEntryWorker (tab :: rest) n last with
        | .found iw =>
          let e := { tab iw with allocated := true }
          let e := if tciTabFixedAssignments && isFixedThread
                   then { e with bound := true } else e
          .ret iw e (cs ++ (scanPass tab n last).2)
        | .aborted => .aborted
        | .pending => .pending
    match cache with
    | some ic =>
      let e := tab ic
      if e.bound then .ret ic e []
      else if !e.allocated then .ret ic { e with allocated := true } [ic]
      else cold [ic]
    | none => cold []

/-! ## Memory-region tables (`getMemEntry`, `mrGetDesc`, `mrGetKey`) -/

/-- The C `struct memEntry`: one registered memory region. -/
structure memEntry where
  addr : Nat
  size : Nat
  desc : Nat
  key : Nat
  base : Nat
  deriving DecidableEq, Repr

/-- Function `getMemEntry`: first region fully containing `[addr, addr+size)`. -/
def getMemEntry (tab : List memEntry) (addr size : Nat) : Option memEntry :=
  tab.find? (fun mr => decide (mr.addr ≤ addr) && decide (addr + size ≤ mr.addr + mr.size))

/-- Global configuration fixed at initialization time. -/
structure OfiEnv where
  haveDeliveryComplete : Bool
  maxMsgSize : Nat            -- ofi_info->ep_attr->max_msg_size
  injectSize : Nat            -- ofi_info->tx_attr->inject_size
  numNodes : Nat              -- chpl_numNodes
  nodeID : Nat                -- chpl_nodeID
  scalableMemReg : Bool
  memTabMap : Nat → List memEntry  -- replicated per-node MR tables

/-- Function `mrGetDesc`: local descriptor for `[addr, addr+size)`; under scalable
registration the descriptor is NULL (0) and lookup always succeeds. -/
def mrGetDesc (env : OfiEnv) (addr size : Nat) : Option Nat :=
  if env.scalableMemReg then some 0
  else (getMemEntry (env.memTabMap env.nodeID) addr size).map (·.desc)

/-- Function `mrGetKey`: remote key and offset for `[addr, addr+size)` on `iNode`;
under scalable registration the key is 0 and the offset is the address. -/
def mrGetKey (env : OfiEnv) (iNode addr size : Nat) : Option (Nat × Nat) :=
  if env.scalableMemReg then some (0, addr)
  else (getMemEntry (env.memTabMap iNode) addr size).map
         (fun mr => (mr.key, addr - mr.base))

/-- Function `mrGetLocalKey`: `mrGetKey` on the caller's own node. -/
def mrGetLocalKey (env : OfiEnv) (addr size : Nat) : Option (Nat × Nat) :=
  mrGetKey env env.nodeID addr size

/-! ## Task-private data -/

/-- The fields of `chpl_comm_taskPrvData_t` the claims are about. -/
structure chpl_comm_taskPrvData_t where
  putBitmap : Option bitmap_t
  amDonePending : Bool
  taskIsEnding : Bool
  deriving DecidableEq, Repr

/-- Function `retireDelayedAmDone`: wait out any delayed-blocking AM (a local spin
on an already-armed flag; no new fabric traffic) and note task end. -/
def retireDelayedAmDone (taskIsEnding : Bool) (prv : chpl_comm_taskPrvData_t) :
    chpl_comm_taskPrvData_t :=
  let prv := if prv.amDonePending then { prv with amDonePending := false } else prv
  if taskIsEnding then { prv with taskIsEnding := true } else prv

/-! ## AM request kinds and fabric atomic ops -/

/-- The enum `amOp_t`: the AM request opcode byte. -/
inductive amOp_t where
  | am_opExecOn
  | am_opExecOnLrg
  | am_opGet
  | am_opPut
  | am_opAMO
  | am_opFree
  | am_opNop
  | am_opShutdown
  deriving DecidableEq, Repr

/-- The `enum fi_op` values the substrate uses. -/
inductive fi_op_t where
  | FI_ATOMIC_WRITE
  | FI_ATOMIC_READ
  | FI_CSWAP
  | FI_BAND
  | FI_BOR
  | FI_BXOR
  | FI_SUM
  deriving DecidableEq, Repr

/-! ## RDMA engine (`ofi_put`, `ofi_get`) -/

/-- Fabric-visible actions of the RDMA engine, in issue order.  A
`fiWrite` carries whether a done-flag context was attached (delivery
complete) or a NULL context was used (message order). -/
inductive rmaEvent where
  | fiWrite (node mrRaddr mrKey addr size : Nat) (ctxIsDone : Bool)
  | fiInjectWrite (node mrRaddr mrKey addr size : Nat)
  | orderDummyGet (node : Nat)   -- 1-byte ofi_get_ll into the order-dummy slot
  | fiRead (node addr mrRaddr mrKey size : Nat)
  | waitTxnComplete
  | amRequestRMA (op : amOp_t) (node addr raddr size : Nat)
  deriving DecidableEq, Repr

/-- The `for (i = 0; i < size; i += chunkSize)` loop that both `ofi_put`
and `ofi_get` use (textually identical in the two functions) to split an
oversized transfer.  `chunkSize` starts at `max_msg_size` and is clipped
to the remaining bytes; the returned pairs are (offset, length).  The
`fuel` argument only bounds the recursion; `fuel = size` always
suffices because each iteration advances by at least one byte. -/
def chunkLoop (size : Nat) : Nat → Nat → Nat → List (Nat × Nat)
  | 0, _, _ => []
  | fuel + 1, i, chunkSize =>
    if i < size then
      let c := if chunkSize > size - i then size - i else chunkSize
      (i, c) :: chunkLoop size fuel (i + c) c
    else []

/-- Chunks of an oversized transfer of `size` bytes with provider limit
`maxMsg`. -/
def transferChunks (size maxMsg : Nat) : List (Nat × Nat) :=
  chunkLoop size size 0 maxMsg

/-- The `size ≤ max_msg_size` body of `ofi_put`.  The bounce-buffer leg
(when the source has no local descriptor) copies the source into
registered memory first; it changes no issued fabric operation, so the
events do not record it.  Transmit-context counter updates are modelled
only on the AM path, where a claim is about them. -/
def ofi_putDirect (env : OfiEnv) (tcipBound : Bool)
    (prv : chpl_comm_taskPrvData_t) (addr node raddr size : Nat) :
    List rmaEvent × chpl_comm_taskPrvData_t :=
  match mrGetKey env node raddr size with
  | some kr =>
    if env.haveDeliveryComplete || !tcipBound || size > env.injectSize then
      let wr := rmaEvent.fiWrite node kr.2 kr.1 addr size env.haveDeliveryComplete
      if env.haveDeliveryComplete then
        ([wr, .waitTxnComplete], prv)
      else
        ([wr, .orderDummyGet node, .waitTxnComplete], prv)
    else
      let b := prv.putBitmap.getD (bitmapAlloc env.numNodes)
      ([.fiInjectWrite node kr.2 kr.1 addr size],
       { prv with putBitmap := some (bitmapSet b node) })
  | none =>
    -- remote side not RMA-addressable: have the peer GET from us
    ([.amRequestRMA .am_opGet node addr raddr size], prv)

/-- Function `ofi_put`.  In the C code the oversized case recursively calls
`ofi_put` on each chunk; every chunk length is at most `max_msg_size`,
so each recursive call takes the direct branch, which the fold makes
explicit. -/
def ofi_put (env : OfiEnv) (tcipBound : Bool)
    (prv : chpl_comm_taskPrvData_t) (addr node raddr size : Nat) :
    List rmaEvent × chpl_comm_taskPrvData_t :=
  if size > env.maxMsgSize then
    (transferChunks size env.maxMsgSize).foldl
      (fun acc ic =>
        let r := ofi_putDirect env tcipBound acc.2 (addr + ic.1) node (raddr + ic.1) ic.2
        (acc.1 ++ r.1, r.2))
      ([], prv)
  else
    ofi_putDirect env tcipBound prv addr node raddr size

/-- The `size ≤ max_msg_size` body of `ofi_get`. -/
def ofi_getDirect (env : OfiEnv) (tcipBound : Bool)
    (prv : chpl_comm_taskPrvData_t) (addr node raddr size : Nat) :
    List rmaEvent × chpl_comm_taskPrvData_t :=
  match mrGetKey env node raddr size with
  | some kr =>
    let prv :=
      if !env.haveDeliveryComplete && tcipBound then
        match prv.putBitmap with
        | some b => { prv with putBitmap := some (bitmapClear b node) }
        | none => prv
      else prv
    ([.fiRead node addr kr.2 kr.1 size, .waitTxnComplete], prv)
  | none =>
    -- remote side not RMA-addressable: have the peer PUT into us
    ([.amRequestRMA .am_opPut node addr raddr size], prv)

/-- Function `ofi_get`, with the same chunking as `ofi_put`. -/
def ofi_get (env : OfiEnv) (tcipBound : Bool)
    (prv : chpl_comm_taskPrvData_t) (addr node raddr size : Nat) :
    List rmaEvent × chpl_comm_taskPrvData_t :=
  if size > env.maxMsgSize then
    (transferChunks size env.maxMsgSize).foldl
      (fun acc ic =>
        let r := ofi_getDirect env tcipBound acc.2 (addr + ic.1) node (raddr + ic.1) ic.2
        (acc.1 ++ r.1, r.2))
      ([], prv)
  else
    ofi_getDirect env tcipBound prv addr node raddr size

/-! ## Public PUT/GET entry points -/

/-- Abort through a `CHK_TRUE` / `CHK_FALSE` guard. -/
inductive chkAbort where
  | chkFailed
  deriving DecidableEq, Repr

/-- Events of the public entry points. -/
inductive commEvent where
  | memmove (dst src size : Nat)
  | rma (e : rmaEvent)
  deriving DecidableEq, Repr

/-- Function `chpl_comm_put`.  Addresses are `Nat` with 0 for NULL.  Diagnostics
and the comm-callback hooks issue no fabric traffic and are elided. -/
def chpl_comm_put (env : OfiEnv) (tcipBound : Bool)
    (prv : chpl_comm_taskPrvData_t) (addr node raddr size : Nat) :
    Except chkAbort (List commEvent × chpl_comm_taskPrvData_t) :=
  let prv := retireDelayedAmDone false prv
  if addr = 0 then .error .chkFailed
  else if raddr = 0 then .error .chkFailed
  else if size = 0 then .ok ([], prv)
  else if node = env.nodeID then .ok ([.memmove raddr addr size], prv)
  else
    let r := ofi_put env tcipBound prv addr node raddr size
    .ok (r.1.map .rma, r.2)

/-- Function `chpl_comm_get`. -/
def chpl_comm_get (env : OfiEnv) (tcipBound : Bool)
    (prv : chpl_comm_taskPrvData_t) (addr node raddr size : Nat) :
    Except chkAbort (List commEvent × chpl_comm_taskPrvData_t) :=
  let prv := retireDelayedAmDone false prv
  if addr = 0 then .error .chkFailed
  else if raddr = 0 then .error .chkFailed
  else if size = 0 then .ok ([], prv)
  else if node = env.nodeID then .ok ([.memmove addr raddr size], prv)
  else
    let r := ofi_get env tcipBound prv addr node raddr size
    .ok (r.1.map .rma, r.2)

/-! ## AM request transmission (`amRequestCommon`) -/

/-- Actions of `amRequestCommon`, in order. -/
inductive amEvent where
  | visAllNodes              -- waitForPutsVisAllNodes
  | visOneNode (node : Nat)  -- waitForPutsVisOneNode
  | fiInject (node reqSize : Nat)
  | fiSend (node reqSize : Nat)
  | waitTxnComplete
  | amWaitForDone
  deriving DecidableEq, Repr

/-- The request fields `amRequestCommon` inspects: the opcode and, for
AMO requests, the fabric atomic op. -/
structure amRequest_t where
  op : amOp_t
  amoOfiOp : fi_op_t
  deriving DecidableEq, Repr

/-- The MCM pre-step of `amRequestCommon`: which PUT-visibility wait, if
any, precedes sending the request. -/
def amVisSteps (node : Nat) (req : amRequest_t) : List amEvent :=
  if req.op = .am_opExecOn ∨ req.op = .am_opExecOnLrg ∨
     (req.op = .am_opAMO ∧ req.amoOfiOp ≠ .FI_ATOMIC_READ) then
    [.visAllNodes]
  else if req.op = .am_opGet ∨ req.op = .am_opPut then
    [.visOneNode node]
  else []

/-- Function `amRequestCommon` from the MCM pre-step on.  Here `blocking` is
`ppAmDone != NULL`, i.e. the caller asked for a done flag.  Done-flag
setup and the debug sequence-number block issue no fabric traffic and
are elided. -/
def amRequestCommon (env : OfiEnv) (node : Nat) (req : amRequest_t)
    (reqSize : Nat) (blocking : Bool) (tc : perTxCtxInfo_t) :
    List amEvent × perTxCtxInfo_t :=
  let vis : List amEvent := amVisSteps node req
  if !blocking && reqSize ≤ env.injectSize then
    (vis ++ [.fiInject node reqSize],
     { tc with numTxnsSent := tc.numTxnsSent + 1 })
  else
    (vis ++ [.fiSend node reqSize, .waitTxnComplete]
         ++ (if blocking then [.amWaitForDone] else []),
     { tc with numTxnsOut := tc.numTxnsOut + 1,
               numTxnsSent := tc.numTxnsSent + 1 })

/-! ## AMO engine (`doAMO`, `doCpuAMO`, `ofi_amo`) -/

/-- Actions of the AMO engine. -/
inductive amoEvent where
  | cpuAMO (op : fi_op_t) (size : Nat)  -- doCpuAMO
  | visAllNodes                          -- waitForPutsVisAllNodes
  | amRequestAMO (node : Nat)            -- am_opAMO request to the peer
  | fiAtomic (node : Nat) (op : fi_op_t) -- fi_atomic / fi_fetch_atomic / fi_compare_atomic
  | waitTxnComplete
  deriving DecidableEq, Repr

/-- Function `doCpuAMO`: CPU-side AMO; `CHK_TRUE(size == 4 || size == 8)` aborts
on any other width.  The claims are about routing, so the memory effect
of the op dispatch table is not modelled. -/
def doCpuAMO (op : fi_op_t) (size : Nat) : Except chkAbort (List amoEvent) :=
  if size = 4 ∨ size = 8 then .ok [.cpuAMO op size] else .error .chkFailed

/-- Function `ofi_amo`: native network AMO.  Bounce-buffer staging of operands and
result changes no issued operation and is elided. -/
def ofi_amo (node : Nat) (op : fi_op_t) : List amoEvent :=
  (if op ≠ .FI_ATOMIC_READ then [.visAllNodes] else [])
    ++ [.fiAtomic node op, .waitTxnComplete]

/-- Function `doAMO`.  Here `isAtomicValidType` is the memoized `isAtomicValid(ofiType)`
probe result. -/
def doAMO (env : OfiEnv) (isAtomicValidType : Bool)
    (node obj : Nat) (op : fi_op_t) (size : Nat) :
    Except chkAbort (List amoEvent) :=
  if env.numNodes ≤ 1 then
    doCpuAMO op size
  else
    -- retireDelayedAmDone(false): local spin only, no fabric traffic
    if !isAtomicValidType || (mrGetKey env node obj size).isNone then
      if node = env.nodeID then
        (doCpuAMO op size).map
          (fun evs => (if op ≠ .FI_ATOMIC_READ then [amoEvent.visAllNodes] else []) ++ evs)
      else
        .ok [.amRequestAMO node]
    else
      .ok (ofi_amo node op)

/-! ## Byte-level denotation of transfers (for the chunking claim) -/

/-- Byte-addressed memory. -/
def Mem : Type := Nat → Nat

/-- The effect of one logical transfer of `size` bytes from `src` at
`srcBase` into `dst` at `dstBase`. -/
def transferBytes (src : Mem) (srcBase : Nat) (dst : Mem) (dstBase size : Nat) : Mem :=
  fun a => if dstBase ≤ a ∧ a < dstBase + size then src (srcBase + (a - dstBase)) else dst a

/-- A chunk list is consecutive, positive-length, and covers `[i, sz)`
exactly: each chunk starts where the previous ended and the last ends at
`sz`. -/
def chunksCover : List (Nat × Nat) → Nat → Nat → Prop
  | [], i, sz => i = sz
  | ic :: rest, i, sz => ic.1 = i ∧ 0 < ic.2 ∧ i + ic.2 ≤ sz ∧ chunksCover rest (i + ic.2) sz

/-- One step a transmit-context table entry can take during execution:
released by `tciFree`, claimed by an `atomic_exchange` that found the
flag false, bound by `tciAllocCommon` right after a successful claim, or
having its counters updated by the issue/completion paths. -/
inductive tcxStep : perTxCtxInfo_t → perTxCtxInfo_t → Prop where
  | free (e : perTxCtxInfo_t) : tcxStep e (tciFree e)
  | claim (e : perTxCtxInfo_t) (h : e.allocated = false) :
      tcxStep e { e with allocated := true }
  | bind (e : perTxCtxInfo_t) (h : e.allocated = true) :
      tcxStep e { e with bound := true }
  | counters (e : perTxCtxInfo_t) (o s : Nat) :
      tcxStep e { e with numTxnsOut := o, numTxnsSent := s }

/-! ## Theorems -/

/-- C9.  The completion-context tag encoding round-trips: for either
variant and any payload with the top bit clear, `txnTrkDecode`
recovers exactly the variant (in the top bit) and the payload (in the
low 63 bits). -/
theorem txnTrk_encode_decode_roundtrip (typ : txnTrkType_t) (p : Nat)
    (hp : p < 2 ^ 63) :
    txnTrkDecode (txnTrkEncode typ p) = ⟨typ.val, p⟩ := by
  have hmask : TXNTRK_ADDR_MASK = 2 ^ 63 - 1 := by decide
  have hbits : TXNTRK_ADDR_BITS = 63 := by decide
  have htmask : TXNTRK_TYPE_MASK = 1 := by decide
  have hp' : p &&& TXNTRK_ADDR_MASK = p := by
    rw [hmask, Nat.and_pow_two_sub_one_eq_mod, Nat.mod_eq_of_lt hp]
  cases typ with
  | txnTrkId =>
    have henc : txnTrkEncode .txnTrkId p = p := by
      simp only [txnTrkEncode, txnTrkType_t.val, hp', hbits]
      rw [Nat.zero_shiftLeft, Nat.zero_or,
          Nat.mod_eq_of_lt (lt_trans hp (by norm_num))]
    rw [henc]
    simp only [txnTrkDecode, txnTrkCtx_t.mk.injEq, hbits, htmask, hp',
               txnTrkType_t.val]
    refine ⟨?_, trivial⟩
    rw [Nat.shiftRight_eq_div_pow, Nat.div_eq_of_lt hp]
    decide
  | txnTrkDone =>
    have henc : txnTrkEncode .txnTrkDone p = 2 ^ 63 + p := by
      simp only [txnTrkEncode, txnTrkType_t.val, hp', hbits]
      rw [Nat.shiftLeft_eq, one_mul]
      have hor : 2 ^ 63 + p = 2 ^ 63 ||| p := by
        have := Nat.mul_add_lt_is_or hp 1
        simpa using this
      rw [← hor, Nat.mod_eq_of_lt (by norm_num; omega)]
    rw [henc]
    simp only [txnTrkDecode, txnTrkCtx_t.mk.injEq, hbits, htmask,
               txnTrkType_t.val]
    constructor
    · rw [Nat.shiftRight_eq_div_pow]
      have hdiv : (2 ^ 63 + p) / 2 ^ 63 = 1 := by
        rw [Nat.add_comm, Nat.add_div_right _ (by positivity),
            Nat.div_eq_of_lt hp]
      rw [hdiv]
      decide
    · rw [hmask, Nat.and_pow_two_sub_one_eq_mod, Nat.add_mod_left,
          Nat.mod_eq_of_lt hp]

/-- Witness for C9 at variant `txnTrkDone`, payload 5. -/
theorem txnTrk_encode_decode_roundtrip_witness :
    (5 : Nat) < 2 ^ 63 ∧
      txnTrkDecode (txnTrkEncode .txnTrkDone 5) = ⟨txnTrkType_t.val .txnTrkDone, 5⟩ :=
  ⟨by norm_num, txnTrk_encode_decode_roundtrip .txnTrkDone 5 (by norm_num)⟩

/-- C10.  In `chpl_comm_put` and `chpl_comm_get`, a NULL `addr` or
`raddr` aborts through the `CHK_TRUE` guard; the guard precedes both the
`size == 0` early return and the self-communication `memmove`, so even a
zero-length or self-targeted transfer with a NULL pointer aborts. -/
theorem chpl_comm_put_get_null_aborts (env : OfiEnv) (tcipBound : Bool)
    (prv : chpl_comm_taskPrvData_t) (addr node raddr size : Nat)
    (h : addr = 0 ∨ raddr = 0) :
    chpl_comm_put env tcipBound prv addr node raddr size = .error .chkFailed ∧
    chpl_comm_get env tcipBound prv addr node raddr size = .error .chkFailed := by
  rcases h with h | h <;> subst h <;>
    constructor <;> simp [chpl_comm_put, chpl_comm_get]

/-- Witness for C10: a zero-length, self-targeted PUT/GET with NULL
`addr` still aborts. -/
theorem chpl_comm_put_get_null_aborts_witness :
    ((0 : Nat) = 0 ∨ (40 : Nat) = 0) ∧
      (chpl_comm_put ⟨true, 100, 10, 4, 0, true, fun _ => []⟩ true
          ⟨none, false, false⟩ 0 0 40 0 = .error .chkFailed ∧
       chpl_comm_get ⟨true, 100, 10, 4, 0, true, fun _ => []⟩ true
          ⟨none, false, false⟩ 0 0 40 0 = .error .chkFailed) :=
  ⟨Or.inl rfl,
   chpl_comm_put_get_null_aborts ⟨true, 100, 10, 4, 0, true, fun _ => []⟩ true
     ⟨none, false, false⟩ 0 0 40 0 (Or.inl rfl)⟩

/-- Every element of the MCM pre-step is a visibility wait. -/
lemma amVisSteps_mem (node : Nat) (req : amRequest_t) :
    ∀ e ∈ amVisSteps node req,
      e = amEvent.visAllNodes ∨ e = amEvent.visOneNode node := by
  intro e he
  unfold amVisSteps at he
  split at he
  · simp at he; simp [he]
  · split at he
    · simp at he; simp [he]
    · simp at he

/-- The trace of `amRequestCommon` is the MCM pre-step followed by the send
steps, none of which is a visibility wait. -/
lemma amRequestCommon_trace (env : OfiEnv) (node : Nat) (req : amRequest_t)
    (reqSize : Nat) (blocking : Bool) (tc : perTxCtxInfo_t) :
    ∃ rest,
      (amRequestCommon env node req reqSize blocking tc).1 =
        amVisSteps node req ++ rest ∧
      ∀ e ∈ rest, e ≠ amEvent.visAllNodes ∧ ∀ n, e ≠ amEvent.visOneNode n := by
  unfold amRequestCommon
  split
  · exact ⟨[.fiInject node reqSize], rfl, by simp⟩
  · refine ⟨[.fiSend node reqSize, .waitTxnComplete]
        ++ (if blocking then [.amWaitForDone] else []), by simp, ?_⟩
    intro e he
    rcases List.mem_append.mp he with he | he
    · simp at he; rcases he with he | he <;> simp [he]
    · split at he <;> simp at he
      simp [he]

/-- C2.  The MCM pre-step of `amRequestCommon`: executeOn, large
executeOn, and mutating AMO requests force PUT visibility on all nodes;
proxy GET/PUT requests force it only on the target node; Free, Nop and
Shutdown requests force none. -/
theorem amRequestCommon_mcm_prestep (env : OfiEnv) (node : Nat)
    (req : amRequest_t) (reqSize : Nat) (blocking : Bool)
    (tc : perTxCtxInfo_t) :
    ((req.op = .am_opExecOn ∨ req.op = .am_opExecOnLrg ∨
        (req.op = .am_opAMO ∧ req.amoOfiOp ≠ .FI_ATOMIC_READ)) →
       amVisSteps node req = [.visAllNodes]) ∧
    ((req.op = .am_opGet ∨ req.op = .am_opPut) →
       amVisSteps node req = [.visOneNode node]) ∧
    ((req.op = .am_opFree ∨ req.op = .am_opNop ∨ req.op = .am_opShutdown) →
       amVisSteps node req = []) ∧
    (∃ rest,
      (amRequestCommon env node req reqSize blocking tc).1 =
        amVisSteps node req ++ rest ∧
      ∀ e ∈ rest, e ≠ amEvent.visAllNodes ∧ ∀ n, e ≠ amEvent.visOneNode n) := by
  refine ⟨?_, ?_, ?_, amRequestCommon_trace env node req reqSize blocking tc⟩
  · intro h
    unfold amVisSteps
    rw [if_pos h]
  · intro h
    unfold amVisSteps
    rw [if_neg, if_pos h]
    rcases h with h | h <;> rcases req with ⟨op, amoOp⟩ <;> subst h <;> simp
  · intro h
    unfold amVisSteps
    rw [if_neg, if_neg]
    · rcases h with h | h | h <;> rcases req with ⟨op, amoOp⟩ <;> subst h <;> simp
    · rcases h with h | h | h <;> rcases req with ⟨op, amoOp⟩ <;> subst h <;> simp

/-- Witness for C2 at each representative op kind on node 2. -/
theorem amRequestCommon_mcm_prestep_witness :
    (amVisSteps 2 ⟨.am_opExecOn, .FI_SUM⟩ = [.visAllNodes] ∧
     amVisSteps 2 ⟨.am_opAMO, .FI_SUM⟩ = [.visAllNodes]) ∧
    amVisSteps 2 ⟨.am_opGet, .FI_ATOMIC_READ⟩ = [.visOneNode 2] ∧
    amVisSteps 2 ⟨.am_opFree, .FI_ATOMIC_READ⟩ = [] := by
  refine ⟨⟨?_, ?_⟩, ?_, ?_⟩
  · exact (amRequestCommon_mcm_prestep ⟨true, 100, 10, 4, 0, true, fun _ => []⟩
      2 ⟨.am_opExecOn, .FI_SUM⟩ 8 false ⟨true, true, true, 0, 0⟩).1 (by simp)
  · exact (amRequestCommon_mcm_prestep ⟨true, 100, 10, 4, 0, true, fun _ => []⟩
      2 ⟨.am_opAMO, .FI_SUM⟩ 8 false ⟨true, true, true, 0, 0⟩).1 (by simp)
  · exact (amRequestCommon_mcm_prestep ⟨true, 100, 10, 4, 0, true, fun _ => []⟩
      2 ⟨.am_opGet, .FI_ATOMIC_READ⟩ 8 false ⟨true, true, true, 0, 0⟩).2.1 (by simp)
  · exact (amRequestCommon_mcm_prestep ⟨true, 100, 10, 4, 0, true, fun _ => []⟩
      2 ⟨.am_opFree, .FI_ATOMIC_READ⟩ 8 false ⟨true, true, true, 0, 0⟩).2.2.1 (by simp)

/-- C5.  `amRequestCommon` transmits through `fi_inject` exactly when no
done flag was requested and the request fits the inject size; the inject
path bumps `numTxnsSent` only, while the `fi_send` path bumps both
counters and waits for the send completion before continuing. -/
theorem amRequestCommon_inject_rule (env : OfiEnv) (node : Nat)
    (req : amRequest_t) (reqSize : Nat) (blocking : Bool)
    (tc : perTxCtxInfo_t) :
    (amEvent.fiInject node reqSize ∈
        (amRequestCommon env node req reqSize blocking tc).1 ↔
      (blocking = false ∧ reqSize ≤ env.injectSize)) ∧
    (blocking = false → reqSize ≤ env.injectSize →
      amRequestCommon env node req reqSize blocking tc =
        (amVisSteps node req ++ [.fiInject node reqSize],
         { tc with numTxnsSent := tc.numTxnsSent + 1 })) ∧
    (¬(blocking = false ∧ reqSize ≤ env.injectSize) →
      amRequestCommon env node req reqSize blocking tc =
        (amVisSteps node req ++ [.fiSend node reqSize, .waitTxnComplete]
           ++ (if blocking then [.amWaitForDone] else []),
         { tc with numTxnsOut := tc.numTxnsOut + 1,
                   numTxnsSent := tc.numTxnsSent + 1 })) := by
  have hvis := amVisSteps_mem node req
  refine ⟨?_, ?_, ?_⟩
  · constructor
    · intro hmem
      unfold amRequestCommon at hmem
      split at hmem
      · next hcond =>
        simp only [Bool.and_eq_true, Bool.not_eq_true', decide_eq_true_eq] at hcond
        exact ⟨hcond.1, hcond.2⟩
      · next hcond =>
        exfalso
        simp only at hmem
        rcases List.mem_append.mp hmem with hm | hm
        · rcases List.mem_append.mp hm with hm | hm
          · rcases hvis _ hm with h | h <;> simp at h
          · simp at hm
        · split at hm <;> simp at hm
    · rintro ⟨hb, hsz⟩
      unfold amRequestCommon
      rw [if_pos (by simp [hb, hsz])]
      simp
  · intro hb hsz
    unfold amRequestCommon
    rw [if_pos (by simp [hb, hsz])]
  · intro h
    unfold amRequestCommon
    rw [if_neg ?_]
    simp only [Bool.and_eq_true, Bool.not_eq_true', decide_eq_true_eq]
    exact fun hc => h ⟨hc.1, hc.2⟩

/-- Witness for C5: a non-blocking Nop of size 8 with inject size 10 is
injected and bumps only `numTxnsSent`. -/
theorem amRequestCommon_inject_rule_witness :
    amRequestCommon ⟨true, 100, 10, 4, 0, true, fun _ => []⟩ 2
        ⟨.am_opNop, .FI_ATOMIC_READ⟩ 8 false ⟨true, true, true, 3, 7⟩ =
      (amVisSteps 2 ⟨.am_opNop, .FI_ATOMIC_READ⟩ ++ [.fiInject 2 8],
       ⟨true, true, true, 3, 8⟩) :=
  (amRequestCommon_inject_rule ⟨true, 100, 10, 4, 0, true, fun _ => []⟩ 2
      ⟨.am_opNop, .FI_ATOMIC_READ⟩ 8 false ⟨true, true, true, 3, 7⟩).2.1
    rfl (by norm_num)

/-- One table-entry step keeps a bound, allocated context bound and
allocated. -/
lemma tcxStep_preserves_bound_allocated {e e' : perTxCtxInfo_t}
    (h : tcxStep e e') (hb : e.bound = true) (ha : e.allocated = true) :
    e'.bound = true ∧ e'.allocated = true := by
  cases h with
  | free => rw [tciFree, hb]; exact ⟨hb, ha⟩
  | claim hc => rw [hc] at ha; cases ha
  | bind hc => exact ⟨rfl, ha⟩
  | counters o s => exact ⟨hb, ha⟩

/-- C6.  A bound transmit context is never returned to the pool:
`tciFree` only clears `allocated` on non-bound contexts, a bound and
allocated context stays bound and allocated across any sequence of
execution steps, and `tciAllocCommon` returns a thread's cached bound
context with no atomic claim at all. -/
theorem tcx_bound_never_pooled :
    (∀ e : perTxCtxInfo_t, e.bound = true → tciFree e = e) ∧
    (∀ e : perTxCtxInfo_t, e.bound = false →
       tciFree e = { e with allocated := false }) ∧
    (∀ e e' : perTxCtxInfo_t, Relation.ReflTransGen tcxStep e e' →
       e.bound = true → e.allocated = true →
       e'.bound = true ∧ e'.allocated = true) ∧
    (∀ (bindToAmHandler fixedAssignments isFixedThread : Bool)
       (ic n last : Nat) (tab : Nat → perTxCtxInfo_t)
       (rest : List (Nat → perTxCtxInfo_t)),
       (tab ic).bound = true →
       tciAllocCommon bindToAmHandler fixedAssignments isFixedThread
           (some ic) (tab :: rest) n last = .ret ic (tab ic) []) := by
  refine ⟨?_, ?_, ?_, ?_⟩
  · intro e hb; rw [tciFree, hb]; rfl
  · intro e hb; rw [tciFree, hb]; rfl
  · intro e e' hsteps hb ha
    induction hsteps with
    | refl => exact ⟨hb, ha⟩
    | tail _ hstep ih =>
      exact tcxStep_preserves_bound_allocated hstep ih.1 ih.2
  · intro bATA fA fT ic n last tab rest hb
    unfold tciAllocCommon
    simp only [hb]
    rfl

/-- Witness for C6: a bound entry survives `tciFree` and a cached bound
entry is returned claim-free. -/
theorem tcx_bound_never_pooled_witness :
    tciFree ⟨true, true, true, 0, 0⟩ = ⟨true, true, true, 0, 0⟩ ∧
    tciAllocCommon false true false (some 1)
        [fun _ => ⟨true, true, true, 0, 0⟩] 3 0 =
      .ret 1 ⟨true, true, true, 0, 0⟩ [] :=
  ⟨tcx_bound_never_pooled.1 ⟨true, true, true, 0, 0⟩ rfl,
   tcx_bound_never_pooled.2.2.2 false true false 1 3 0
     (fun _ => ⟨true, true, true, 0, 0⟩) [] rfl⟩

/-- Counterexample to C7's AMO clause: on a 2-node job with scalable
memory registration (every address MR-addressable, key 0) and a natively
valid atomic type, an AMO whose target is the caller's own node is issued
as a native fabric atomic (`fi_atomic` path of `ofi_amo`), not as a
CPU-side `doCpuAMO`. -/
theorem doAMO_self_native_counterexample :
    doAMO ⟨true, 100, 10, 2, 0, true, fun _ => []⟩ true 0 50 .FI_SUM 8 =
      .ok [.visAllNodes, .fiAtomic 0 .FI_SUM, .waitTxnComplete] ∧
    (∀ evs, doAMO ⟨true, 100, 10, 2, 0, true, fun _ => []⟩ true 0 50 .FI_SUM 8 =
        .ok evs → amoEvent.cpuAMO .FI_SUM 8 ∉ evs) := by
  refine ⟨rfl, ?_⟩
  intro evs h
  have h0 : doAMO ⟨true, 100, 10, 2, 0, true, fun _ => []⟩ true 0 50 .FI_SUM 8 =
      .ok [.visAllNodes, .fiAtomic 0 .FI_SUM, .waitTxnComplete] := rfl
  rw [h0] at h
  injection h with h
  subst h
  decide

/-- C7 (amended).  PUT and GET with `peer == self` degrade to a single
`memmove` with no fabric operation.  An AMO with `peer == self` on a
multi-node job degrades to `doCpuAMO` exactly when the type is not
natively atomic-valid or the object is not MR-addressable; otherwise it
is issued as a native fabric AMO even to self. -/
theorem self_comm_put_get_memmove_amo_routed (env : OfiEnv)
    (tcipBound : Bool) (prv : chpl_comm_taskPrvData_t)
    (addr raddr size obj size' : Nat) (valid : Bool) (op : fi_op_t)
    (ha : addr ≠ 0) (hr : raddr ≠ 0) (hs : size ≠ 0)
    (hmulti : 1 < env.numNodes) :
    chpl_comm_put env tcipBound prv addr env.nodeID raddr size =
      .ok ([.memmove raddr addr size], retireDelayedAmDone false prv) ∧
    chpl_comm_get env tcipBound prv addr env.nodeID raddr size =
      .ok ([.memmove addr raddr size], retireDelayedAmDone false prv) ∧
    ((valid = false ∨ mrGetKey env env.nodeID obj size' = none) →
       doAMO env valid env.nodeID obj op size' =
         (doCpuAMO op size').map
           (fun evs => (if op ≠ .FI_ATOMIC_READ then [amoEvent.visAllNodes] else [])
             ++ evs)) ∧
    (valid = true → (mrGetKey env env.nodeID obj size').isSome →
       doAMO env valid env.nodeID obj op size' = .ok (ofi_amo env.nodeID op)) := by
  refine ⟨?_, ?_, ?_, ?_⟩
  · simp [chpl_comm_put, ha, hr, hs]
  · simp [chpl_comm_get, ha, hr, hs]
  · intro hcpu
    unfold doAMO
    rw [if_neg (by omega)]
    rcases hcpu with hv | hk
    · subst hv; simp
    · rw [hk]; simp
  · intro hv hk
    subst hv
    unfold doAMO
    rw [if_neg (by omega)]
    rcases Option.isSome_iff_exists.mp hk with ⟨kr, hkr⟩
    rw [hkr]
    simp

/-- Witness for the amended C7: self PUT/GET memmove, and the two AMO
routes on a 2-node job (unsupported type goes to the CPU; supported,
addressable type goes native). -/
theorem self_comm_put_get_memmove_amo_routed_witness :
    (chpl_comm_put ⟨true, 100, 10, 2, 0, true, fun _ => []⟩ true
        ⟨none, false, false⟩ 60 0 50 8 =
      .ok ([.memmove 50 60 8], ⟨none, false, false⟩) ∧
     chpl_comm_get ⟨true, 100, 10, 2, 0, true, fun _ => []⟩ true
        ⟨none, false, false⟩ 60 0 50 8 =
      .ok ([.memmove 60 50 8], ⟨none, false, false⟩)) ∧
    doAMO ⟨true, 100, 10, 2, 0, true, fun _ => []⟩ false 0 50 .FI_SUM 8 =
      .ok [.visAllNodes, .cpuAMO .FI_SUM 8] ∧
    doAMO ⟨true, 100, 10, 2, 0, true, fun _ => []⟩ true 0 50 .FI_SUM 8 =
      .ok (ofi_amo 0 .FI_SUM) := by
  have h := self_comm_put_get_memmove_amo_routed
    ⟨true, 100, 10, 2, 0, true, fun _ => []⟩ true ⟨none, false, false⟩
    60 50 8 50 8 false .FI_SUM (by decide) (by decide) (by decide) (by decide)
  have h' := self_comm_put_get_memmove_amo_routed
    ⟨true, 100, 10, 2, 0, true, fun _ => []⟩ true ⟨none, false, false⟩
    60 50 8 50 8 true .FI_SUM (by decide) (by decide) (by decide) (by decide)
  refine ⟨⟨h.1, h.2.1⟩, ?_, h'.2.2.2 rfl (by decide)⟩
  have hcpu := h.2.2.1 (Or.inl rfl)
  rw [hcpu]
  rfl

/-- Counterexample to C8's AMO clause: a zero-size AMO does not return
before issuing fabric traffic.  With scalable registration and a valid
type, `doAMO` at `size == 0` runs the native path and issues a fabric
atomic (`doAMO` and its callees never test `size == 0`). -/
theorem doAMO_zero_size_traffic_counterexample :
    doAMO ⟨true, 100, 10, 2, 0, true, fun _ => []⟩ true 1 50 .FI_SUM 0 =
      .ok [.visAllNodes, .fiAtomic 1 .FI_SUM, .waitTxnComplete] ∧
    ([amoEvent.visAllNodes, .fiAtomic 1 .FI_SUM, .waitTxnComplete] ≠ []) :=
  ⟨rfl, by decide⟩

/-- C8 (amended).  A zero-size PUT or GET (with non-NULL pointers)
returns immediately with no fabric traffic and no memory modification;
AMO calls have no zero-size early return. -/
theorem zero_size_put_get_no_traffic (env : OfiEnv) (tcipBound : Bool)
    (prv : chpl_comm_taskPrvData_t) (addr node raddr : Nat)
    (ha : addr ≠ 0) (hr : raddr ≠ 0) :
    chpl_comm_put env tcipBound prv addr node raddr 0 =
      .ok ([], retireDelayedAmDone false prv) ∧
    chpl_comm_get env tcipBound prv addr node raddr 0 =
      .ok ([], retireDelayedAmDone false prv) := by
  constructor
  · simp [chpl_comm_put, ha, hr]
  · simp [chpl_comm_get, ha, hr]

/-- Witness for the amended C8 at concrete addresses. -/
theorem zero_size_put_get_no_traffic_witness :
    chpl_comm_put ⟨true, 100, 10, 2, 0, true, fun _ => []⟩ true
        ⟨none, false, false⟩ 60 1 50 0 = .ok ([], ⟨none, false, false⟩) ∧
    chpl_comm_get ⟨true, 100, 10, 2, 0, true, fun _ => []⟩ true
        ⟨none, false, false⟩ 60 1 50 0 = .ok ([], ⟨none, false, false⟩) :=
  zero_size_put_get_no_traffic ⟨true, 100, 10, 2, 0, true, fun _ => []⟩ true
    ⟨none, false, false⟩ 60 1 50 (by decide) (by decide)

/-- Setting a bit within range makes `bitmapTest` see it. -/
lemma bitmapTest_bitmapSet_self (b : bitmap_t) (i : Nat)
    (h : bitmapElemIdx i < b.map.length) :
    bitmapTest (bitmapSet b i) i = true := by
  unfold bitmapTest bitmapSet
  have hset : ((b.map.set (bitmapElemIdx i)
        ((b.map.getD (bitmapElemIdx i) 0) ||| bitmapElemBit i)).getD
          (bitmapElemIdx i) 0) =
      (b.map.getD (bitmapElemIdx i) 0) ||| bitmapElemBit i := by
    simp [List.getD, List.getElem?_set_self', h]
  rw [hset]
  unfold bitmapElemBit
  rw [Nat.one_shiftLeft, Nat.and_two_pow]
  simp [Nat.testBit_or]

/-- A node index below the bitmap length lands inside the word array. -/
lemma bitmapElemIdx_lt_numElems (node n : Nat) (h : node < n) :
    bitmapElemIdx node < bitmapNumElems n := by
  simp only [bitmapElemIdx, bitmapNumElems, bitmapElemWidth]
  omega

/-- C1.  In message-order mode, a PUT whose remote address has an MR key
either injects (bound context, size within the inject limit): one
`fi_inject_write`, the peer recorded in the task's `put_bitmap`
(allocated lazily), and no wait before returning; or else issues
`fi_write` followed immediately by the 1-byte order-dummy GET from the
same node and waits for that completion before returning. -/
theorem ofi_put_message_order_paths (env : OfiEnv)
    (prv : chpl_comm_taskPrvData_t) (addr node raddr size : Nat)
    (kr : Nat × Nat)
    (hdc : env.haveDeliveryComplete = false)
    (hkey : mrGetKey env node raddr size = some kr)
    (hsz : size ≤ env.maxMsgSize)
    (hnode : node < env.numNodes)
    (hwf : ∀ b, prv.putBitmap = some b →
       b.map.length = bitmapNumElems env.numNodes) :
    (size ≤ env.injectSize →
      (ofi_put env true prv addr node raddr size).1 =
          [.fiInjectWrite node kr.2 kr.1 addr size] ∧
      ∃ b, (ofi_put env true prv addr node raddr size).2.putBitmap = some b ∧
        bitmapTest b node = true ∧
        (prv.putBitmap = none → b = bitmapSet (bitmapAlloc env.numNodes) node)) ∧
    (∀ tcipBound : Bool, (tcipBound = false ∨ env.injectSize < size) →
      ofi_put env tcipBound prv addr node raddr size =
        ([.fiWrite node kr.2 kr.1 addr size false, .orderDummyGet node,
          .waitTxnComplete], prv)) := by
  constructor
  · intro hinj
    have hput : ofi_put env true prv addr node raddr size =
        ([.fiInjectWrite node kr.2 kr.1 addr size],
         { prv with
           putBitmap := some
             (bitmapSet (prv.putBitmap.getD (bitmapAlloc env.numNodes)) node) }) := by
      unfold ofi_put
      rw [if_neg (by omega)]
      unfold ofi_putDirect
      rw [hkey]
      simp only [hdc]
      rw [if_neg (by simp; omega)]
    refine ⟨by rw [hput], _, by rw [hput], ?_, fun hn => by rw [hn]; rfl⟩
    apply bitmapTest_bitmapSet_self
    rcases hb : prv.putBitmap with _ | b0
    · simpa [bitmapAlloc] using bitmapElemIdx_lt_numElems node env.numNodes hnode
    · simp only [hb, Option.getD_some]
      rw [hwf b0 hb]
      exact bitmapElemIdx_lt_numElems node env.numNodes hnode
  · intro tcipBound hslow
    unfold ofi_put
    rw [if_neg (by omega)]
    unfold ofi_putDirect
    rw [hkey]
    simp only [hdc]
    rw [if_pos ?hc]
    case hc =>
      rcases hslow with h | h
      · subst h; simp
      · simp only [Bool.false_or, Bool.or_eq_true, Bool.not_eq_true',
                   decide_eq_true_eq]
        right; omega
    simp

/-- Witness for C1 on a 4-node job with scalable registration: node 2,
an 8-byte inject-path PUT from a fresh task (lazy bitmap allocation) and
a 20-byte write-plus-dummy-GET PUT. -/
theorem ofi_put_message_order_paths_witness :
    ((8 : Nat) ≤ 10 ∧
      (ofi_put ⟨false, 100, 10, 4, 0, true, fun _ => []⟩ true
          ⟨none, false, false⟩ 60 2 50 8).1 = [.fiInjectWrite 2 50 0 60 8]) ∧
    ofi_put ⟨false, 100, 10, 4, 0, true, fun _ => []⟩ false
        ⟨none, false, false⟩ 60 2 50 20 =
      ([.fiWrite 2 50 0 60 20 false, .orderDummyGet 2, .waitTxnComplete],
       ⟨none, false, false⟩) := by
  have h := ofi_put_message_order_paths ⟨false, 100, 10, 4, 0, true, fun _ => []⟩
    ⟨none, false, false⟩ 60 2 50 8 (0, 50) rfl rfl (by decide) (by decide)
    (by intro b hb; cases hb)
  have h2 := ofi_put_message_order_paths ⟨false, 100, 10, 4, 0, true, fun _ => []⟩
    ⟨none, false, false⟩ 60 2 50 20 (0, 50) rfl rfl (by decide) (by decide)
    (by intro b hb; cases hb)
  exact ⟨⟨by decide, (h.1 (by decide)).1⟩, h2.2 false (Or.inl rfl)⟩

/-- A scan that reports `allBound` started with `allBound` still true and
observed `bound` on every entry it visited. -/
lemma scanPassGo_allBound {tab : Nat → perTxCtxInfo_t} :
    ∀ (l : List Nat) (ab : Bool), (scanPassGo tab l ab).1 = .allBound →
      ab = true ∧ ∀ i ∈ l, (tab i).bound = true := by
  intro l
  induction l with
  | nil =>
    intro ab h
    unfold scanPassGo at h
    refine ⟨?_, by simp⟩
    by_contra hab
    rw [Bool.not_eq_true] at hab
    rw [hab] at h
    simp at h
  | cons iw rest ih =>
    intro ab h
    unfold scanPassGo at h
    dsimp only at h
    split at h
    · simp at h
    · rcases ih _ h with ⟨hab', hrest⟩
      rw [Bool.and_eq_true] at hab'
      refine ⟨hab'.1, ?_⟩
      intro i hi
      rcases List.mem_cons.mp hi with rfl | hi
      · exact hab'.2
      · exact hrest i hi

/-- A scan that claims an entry claims one from its visit order whose
`allocated` flag was false. -/
lemma scanPassGo_claimed {tab : Nat → perTxCtxInfo_t} :
    ∀ (l : List Nat) (ab : Bool) (iw : Nat),
      (scanPassGo tab l ab).1 = .claimed iw →
      iw ∈ l ∧ (tab iw).allocated = false := by
  intro l
  induction l with
  | nil =>
    intro ab iw h
    unfold scanPassGo at h
    split at h <;> simp at h
  | cons j rest ih =>
    intro ab iw h
    unfold scanPassGo at h
    dsimp only at h
    split at h
    · next halloc =>
      simp only [scanResult_t.claimed.injEq] at h
      rw [Bool.not_eq_true'] at halloc
      exact ⟨by simp [h.symm], h ▸ halloc⟩
    · rcases ih _ _ h with ⟨hmem, halloc⟩
      exact ⟨List.mem_cons_of_mem j hmem, halloc⟩

/-- Every worker index below `n` is visited by the round-robin scan. -/
lemma mem_scanOrder_of_lt {n last iw : Nat} (hiw : iw < n) :
    iw ∈ scanOrder n last := by
  have hn : 0 < n := by omega
  refine List.mem_map.mpr ?_
  refine ⟨(iw + n - (last + 1) % n) % n, List.mem_range.mpr (Nat.mod_lt _ hn), ?_⟩
  have hr : (last + 1) % n < n := Nat.mod_lt _ hn
  calc (last + 1 + (iw + n - (last + 1) % n) % n) % n
      = ((last + 1) % n + (iw + n - (last + 1) % n) % n) % n := by
        rw [Nat.mod_add_mod]
    _ = ((last + 1) % n + (iw + n - (last + 1) % n)) % n := by
        rw [Nat.add_mod_mod]
    _ = (iw + n) % n := by
        congr 1
        omega
    _ = iw := by rw [Nat.add_mod_right, Nat.mod_eq_of_lt hiw]

/-- Every index the scan visits is below `n`. -/
lemma lt_of_mem_scanOrder {n last iw : Nat} (h : iw ∈ scanOrder n last) :
    iw < n := by
  rcases List.mem_map.mp h with ⟨k, hk, rfl⟩
  rcases Nat.eq_zero_or_pos n with rfl | hn
  · simp at hk
  · exact Nat.mod_lt _ hn

/-- C3.  The worker transmit-context search aborts only when one full
scan of the worker sub-range `[0, tciTabLen - numAmHandlers)` observed
every entry bound; when no entry could be claimed but some scanned entry
was unbound it yields and rescans the (possibly changed) table; and on
success it has claimed an entry of the sub-range whose `allocated` flag
was false. -/
theorem findFreeTciTabEntry_worker_spec
    (snaps : List (Nat → perTxCtxInfo_t)) (n last : Nat) :
    (findFreeTciTabEntryWorker snaps n last = .aborted →
       ∃ tab ∈ snaps, ∀ iw < n, (tab iw).bound = true) ∧
    (∀ (tab : Nat → perTxCtxInfo_t) (rest : List (Nat → perTxCtxInfo_t)),
       (scanPass tab n last).1 = .someUnbound →
       findFreeTciTabEntryWorker (tab :: rest) n last =
         findFreeTciTabEntryWorker rest n last) ∧
    (∀ iw, findFreeTciTabEntryWorker snaps n last = .found iw →
       ∃ tab ∈ snaps, (tab iw).allocated = false ∧ iw < n) := by
  refine ⟨?_, ?_, ?_⟩
  · induction snaps with
    | nil => intro h; simp [findFreeTciTabEntryWorker] at h
    | cons tab rest ih =>
      intro h
      unfold findFreeTciTabEntryWorker at h
      split at h
      · cases h
      · next hscan =>
        refine ⟨tab, by simp, ?_⟩
        intro iw hiw
        exact (scanPassGo_allBound _ _ hscan).2 iw (mem_scanOrder_of_lt hiw)
      · rcases ih h with ⟨tab', hmem, hall⟩
        exact ⟨tab', List.mem_cons_of_mem tab hmem, hall⟩
  · intro tab rest hscan
    simp only [findFreeTciTabEntryWorker, hscan]
  · induction snaps with
    | nil => intro iw h; simp [findFreeTciTabEntryWorker] at h
    | cons tab rest ih =>
      intro iw h
      unfold findFreeTciTabEntryWorker at h
      split at h
      · next hscan =>
        cases h
        rcases scanPassGo_claimed _ _ _ hscan with ⟨hmem, halloc⟩
        exact ⟨tab, by simp, halloc, lt_of_mem_scanOrder hmem⟩
      · cases h
      · rcases ih iw h with ⟨tab', hmem, hall⟩
        exact ⟨tab', List.mem_cons_of_mem tab hmem, hall⟩

/-- Witness for C3 on a 3-entry worker range: an all-bound table aborts;
a table with an unbound busy entry yields to the next snapshot, where the
scan claims the free entry 1. -/
theorem findFreeTciTabEntry_worker_spec_witness :
    (findFreeTciTabEntryWorker [fun _ => ⟨true, true, true, 0, 0⟩] 3 0 =
        .aborted →
      ∃ tab ∈ [fun _ => (⟨true, true, true, 0, 0⟩ : perTxCtxInfo_t)],
        ∀ iw < 3, (tab iw).bound = true) ∧
    findFreeTciTabEntryWorker
        [fun _ => ⟨true, false, true, 0, 0⟩,
         fun i => if i = 1 then ⟨false, false, true, 0, 0⟩
                  else ⟨true, false, true, 0, 0⟩] 3 0 = .found 1 := by
  constructor
  · exact (findFreeTciTabEntry_worker_spec
      [fun _ => ⟨true, true, true, 0, 0⟩] 3 0).1
  · have hyield := (findFreeTciTabEntry_worker_spec
      [fun _ => ⟨true, false, true, 0, 0⟩,
       fun i => if i = 1 then ⟨false, false, true, 0, 0⟩
                else ⟨true, false, true, 0, 0⟩] 3 0).2.1
      (fun _ => ⟨true, false, true, 0, 0⟩)
      [fun i => if i = 1 then ⟨false, false, true, 0, 0⟩
                else ⟨true, false, true, 0, 0⟩]
      (by decide)
    rw [hyield]
    decide

/-- The chunk loop produces a consecutive exact cover of `[i, size)`. -/
lemma chunkLoop_chunksCover (size : Nat) :
    ∀ (fuel i cs : Nat), size - i ≤ fuel → 0 < cs → i ≤ size →
      chunksCover (chunkLoop size fuel i cs) i size := by
  intro fuel
  induction fuel with
  | zero =>
    intro i cs hfuel _ hle
    have : i = size := by omega
    simpa [chunkLoop, chunksCover] using this
  | succ fuel ih =>
    intro i cs hfuel hcs hle
    unfold chunkLoop
    split
    · next hlt =>
      refine ⟨rfl, ?_, ?_, ?_⟩
      · dsimp only; split <;> omega
      · dsimp only; split <;> omega
      · dsimp only
        apply ih
        · split <;> omega
        · split <;> omega
        · split <;> omega
    · next hge =>
      have : i = size := by omega
      simpa [chunksCover] using this

/-- Every chunk length is bounded by the starting chunk size. -/
lemma chunkLoop_len_le (size m : Nat) :
    ∀ (fuel i cs : Nat), cs ≤ m →
      ∀ ic ∈ chunkLoop size fuel i cs, ic.2 ≤ m := by
  intro fuel
  induction fuel with
  | zero => intro i cs _ ic h; simp [chunkLoop] at h
  | succ fuel ih =>
    intro i cs hcs ic h
    unfold chunkLoop at h
    split at h
    · rcases List.mem_cons.mp h with rfl | h
      · dsimp only; split <;> omega
      · refine ih _ _ ?_ ic h
        dsimp only at h ⊢; split <;> omega
    · simp at h

/-- Folding byte transfers over an exact cover of `[i, size)` equals one
transfer of `[i, size)`. -/
lemma chunksCover_fold_transfer (src : Mem) (srcBase dstBase size : Nat) :
    ∀ (L : List (Nat × Nat)) (i : Nat) (m : Mem), chunksCover L i size →
      L.foldl
        (fun mm ic => transferBytes src (srcBase + ic.1) mm (dstBase + ic.1) ic.2)
        m =
      fun a => if dstBase + i ≤ a ∧ a < dstBase + size
               then src (srcBase + (a - dstBase)) else m a := by
  intro L
  induction L with
  | nil =>
    intro i m hcov
    rw [chunksCover] at hcov
    subst hcov
    funext a
    simp only [List.foldl_nil]
    rw [if_neg (by omega)]
  | cons ic rest ih =>
    intro i m hcov
    rcases hcov with ⟨ho, hpos, hle, hcov⟩
    rw [List.foldl_cons, ih _ _ hcov]
    funext a
    rw [ho]
    simp only [transferBytes]
    split_ifs <;>
      first
      | rfl
      | omega
      | (congr 1; omega)

/-- C4.  An oversized transfer is split into consecutive chunks of at
most `max_msg_size` that exactly cover `[0, size)` with no overlap and no
tail; `ofi_put` and `ofi_get` issue each chunk recursively at the
corresponding offsets, and the folded chunk transfers write exactly the
same bytes to the same addresses as one logical transfer of the full
size. -/
theorem oversized_transfer_chunking (env : OfiEnv) (tcipBound : Bool)
    (prv : chpl_comm_taskPrvData_t) (addr node raddr size : Nat)
    (hover : size > env.maxMsgSize) (hmax : 0 < env.maxMsgSize) :
    (∀ ic ∈ transferChunks size env.maxMsgSize, ic.2 ≤ env.maxMsgSize) ∧
    chunksCover (transferChunks size env.maxMsgSize) 0 size ∧
    ofi_put env tcipBound prv addr node raddr size =
      (transferChunks size env.maxMsgSize).foldl
        (fun acc ic =>
          let r := ofi_putDirect env tcipBound acc.2 (addr + ic.1) node
                     (raddr + ic.1) ic.2
          (acc.1 ++ r.1, r.2)) ([], prv) ∧
    ofi_get env tcipBound prv addr node raddr size =
      (transferChunks size env.maxMsgSize).foldl
        (fun acc ic =>
          let r := ofi_getDirect env tcipBound acc.2 (addr + ic.1) node
                     (raddr + ic.1) ic.2
          (acc.1 ++ r.1, r.2)) ([], prv) ∧
    (∀ (src dst : Mem) (srcBase dstBase : Nat),
      (transferChunks size env.maxMsgSize).foldl
        (fun mm ic => transferBytes src (srcBase + ic.1) mm (dstBase + ic.1) ic.2)
        dst =
      transferBytes src srcBase dst dstBase size) := by
  have hcov : chunksCover (transferChunks size env.maxMsgSize) 0 size :=
    chunkLoop_chunksCover size size 0 env.maxMsgSize (by omega) hmax (by omega)
  refine ⟨?_, hcov, ?_, ?_, ?_⟩
  · exact chunkLoop_len_le size env.maxMsgSize size 0 env.maxMsgSize le_rfl
  · unfold ofi_put
    rw [if_pos hover]
  · unfold ofi_get
    rw [if_pos hover]
  · intro src dst srcBase dstBase
    rw [chunksCover_fold_transfer src srcBase dstBase size _ 0 dst hcov]
    funext a
    simp only [transferBytes, Nat.add_zero]

/-- Witness for C4: a 25-byte transfer with a 10-byte message limit is
split into chunks 10, 10, 5 covering `[0, 25)`. -/
theorem oversized_transfer_chunking_witness :
    ((25 : Nat) > 10 ∧ (0 : Nat) < 10) ∧
    transferChunks 25 10 = [(0, 10), (10, 10), (20, 5)] ∧
    chunksCover (transferChunks 25 10) 0 25 := by
  have h := oversized_transfer_chunking
    ⟨false, 10, 10, 4, 0, true, fun _ => []⟩ true ⟨none, false, false⟩
    60 2 50 25 (by decide) (by decide)
  exact ⟨⟨by decide, by decide⟩, by decide, h.2.1⟩

end CommOfi
